import Mathlib

/-
  Verification of the ams compiler core (src/ams_compiler.py):
  line classification, indentation counting, indentation-based tree
  construction (`build_tree` / `__build_element__`) and tree flattening
  (`marker.compile` / `node.compile` / `compile_tree_list`).

  Lines of text are modelled as `List Char`; the `warnings.warn` side
  effect is modelled by an explicit count of warnings emitted.
-/

set_option maxHeartbeats 4000000
set_option maxRecDepth 10000

namespace Ams

/-- The whitespace characters removed by Python `str.strip()` (ASCII ones). -/
def isSpaceChar (c : Char) : Bool :=
  c = ' ' || c = '\t' || c = '\n' || c = '\r' || c = '\x0b' || c = '\x0c'

/-- Python `s.strip()`: remove leading and trailing whitespace characters. -/
def strip (s : List Char) : List Char :=
  ((s.dropWhile isSpaceChar).reverse.dropWhile isSpaceChar).reverse

/-- `__count_indents__(string)`: walk the characters from the left, counting
characters belonging to `indent_chars = ["\t", " "]`, and stop at the first
character that is neither. -/
def count_indents : List Char → Nat
  | [] => 0
  | c :: rest => if c = '\t' || c = ' ' then count_indents rest + 1 else 0

/-- The two node classes of the source, `marker` (a comment line) and
`node` (a command with a list of children), as one inductive type.
`marker` stores only its string; `node` stores its string and its
ordered list of children. -/
inductive Tree where
  | marker (string : List Char) : Tree
  | node (string : List Char) (children : List Tree) : Tree

/-- `add_child`: on a `node`, append the child to `self.children`;
on a `marker`, emit the warning "Cannot add child to comment." and store
nothing.  The second component counts the warnings emitted (0 or 1). -/
def add_child : Tree → Tree → Tree × Nat
  | Tree.marker s, _child => (Tree.marker s, 1)
  | Tree.node s cs, child => (Tree.node s (cs ++ [child]), 0)

mutual

/-- `marker.compile` / `node.compile`: a marker returns `[self.string]`
ignoring `parent`; a node forms `next_str = parent + self.string + " "`,
and returns the concatenation of the children's compilations when it has
children, else the single-element list `[next_str]`. -/
def Tree.compile : Tree → List Char → List (List Char)
  | Tree.marker s, _parent => [s]
  | Tree.node s children, parent =>
      let next_str := parent ++ s ++ [' ']
      if children.length > 0 then compile_children children next_str
      else [next_str]

/-- The `for child in self.children: next_list += child.compile(next_str)`
loop of `node.compile`. -/
def compile_children : List Tree → List Char → List (List Char)
  | [], _ => []
  | c :: cs, next_str => Tree.compile c next_str ++ compile_children cs next_str

end

/-- The result of building one element: the element, the number of
warnings emitted while building it, and the next line index (the cursor
value handed back to the caller), together with its bounds.  `lo` is a
lower bound on the returned cursor. -/
structure BuildOut (file : List (List Char)) (lo : Nat) : Type where
  element : Tree
  warnings : Nat
  next : Nat
  h_lo : lo ≤ next
  h_hi : next ≤ file.length

mutual

/-- The body of `__build_element__(file, line)` for a non-blank line:
count the indents of `file[line]`, build a `marker` when the stripped
line starts with `#` and a `node` otherwise, then run the child loop
from `line + 1`. -/
def build_element_core (file : List (List Char)) (line : Nat)
    (h : line < file.length) : BuildOut file (line + 1) :=
  let command := file[line]
  let indent := count_indents command
  let current_element : Tree :=
    if (strip command).head? = some '#' then Tree.marker (strip command)
    else Tree.node (strip command) []
  build_loop file indent current_element (line + 1) h
termination_by (file.length - line, 0)
decreasing_by
  exact Prod.Lex.left _ _ (by omega)

/-- The `while next_line != len(file)` loop of `__build_element__`:
skip blank lines; at a non-blank line deeper than `indent`, recursively
build it and `add_child` it to `current_element`; at a non-blank line of
depth `≤ indent`, stop and return the cursor there. -/
def build_loop (file : List (List Char)) (indent : Nat) (current_element : Tree)
    (next_line : Nat) (hub : next_line ≤ file.length) : BuildOut file next_line :=
  if heq : next_line = file.length then
    ⟨current_element, 0, next_line, Nat.le_refl _, hub⟩
  else
    have hlt : next_line < file.length := Nat.lt_of_le_of_ne hub heq
    let next_command := file[next_line]
    if (strip next_command).length = 0 then
      let r := build_loop file indent current_element (next_line + 1) hlt
      ⟨r.element, r.warnings, r.next, Nat.le_of_succ_le r.h_lo, r.h_hi⟩
    else
      let next_indent := count_indents next_command
      if next_indent > indent then
        match build_element_core file next_line hlt with
        | ⟨celem, cwarn, cnext, hclo, hchi⟩ =>
          let ac := add_child current_element celem
          let r := build_loop file indent ac.1 cnext hchi
          ⟨r.element, cwarn + ac.2 + r.warnings, r.next,
            Nat.le_trans (Nat.le_of_succ_le hclo) r.h_lo, r.h_hi⟩
      else
        ⟨current_element, 0, next_line, Nat.le_refl _, hub⟩
termination_by (file.length - next_line, 1)
decreasing_by
  · exact Prod.Lex.left _ _ (by omega)
  · exact Prod.Lex.right' _ (by omega) (by omega)
  · exact Prod.Lex.left _ _ (by omega)

end

/-- `__build_element__(file, line)`: return `(None, line)` when the line is
blank, else build the element and return it with the advanced cursor.
Result: (element or `none`, warnings emitted, next line index).
(Calling it with `line` out of range would raise in the source; it is
never called that way, and here returns `(none, 0, line)`.) -/
def build_element (file : List (List Char)) (line : Nat) : Option Tree × Nat × Nat :=
  if h : line < file.length then
    if (strip file[line]).length = 0 then (none, 0, line)
    else
      let r := build_element_core file line h
      (some r.element, r.warnings, r.next)
  else (none, 0, line)

/-- The `while line < len(file)` loop of `build_tree(file)`: skip blank
lines; otherwise build one element with `__build_element__`, append it to
`tree_list`, and continue from the returned line index.  Result: the list
of root trees and the total number of warnings emitted.  (The element is
appended via `Option.toList`; `__build_element__` never returns `none`
here because the loop only calls it on non-blank lines.) -/
def build_tree_loop (file : List (List Char)) (line : Nat) : List Tree × Nat :=
  if h : line < file.length then
    if hb : (strip file[line]).length = 0 then
      build_tree_loop file (line + 1)
    else
      let r := build_element file line
      let rest := build_tree_loop file r.2.2
      (r.1.toList ++ rest.1, r.2.1 + rest.2)
  else ([], 0)
termination_by file.length - line
decreasing_by
  · omega
  · simp only [build_element, dif_pos h, if_neg hb]
    have := (build_element_core file line h).h_lo
    omega

/-- `build_tree(file)`: run the loop from line 0 with an empty `tree_list`. -/
def build_tree (file : List (List Char)) : List Tree × Nat :=
  build_tree_loop file 0

/-- `compile_tree_list(tree_list)`: concatenate `tree.compile()` for each
tree in order, then join the compiled list into one string, appending a
newline after every element. -/
def compile_tree_list (tree_list : List Tree) : List Char :=
  let compiled_list := tree_list.foldl (fun acc tree => acc ++ Tree.compile tree []) []
  compiled_list.foldl (fun compiled_string element => compiled_string ++ element ++ ['\n']) []

mutual

/-- Number of leaf command nodes (nodes with no children) in a tree;
markers count zero. -/
def leaf_count : Tree → Nat
  | Tree.marker _ => 0
  | Tree.node _ [] => 1
  | Tree.node _ (c :: cs) => leaf_count_list (c :: cs)

/-- Sum of `leaf_count` over a list of trees. -/
def leaf_count_list : List Tree → Nat
  | [] => 0
  | c :: cs => leaf_count c + leaf_count_list cs

end

mutual

/-- Number of marker nodes in a tree. -/
def marker_count : Tree → Nat
  | Tree.marker _ => 1
  | Tree.node _ cs => marker_count_list cs

/-- Sum of `marker_count` over a list of trees. -/
def marker_count_list : List Tree → Nat
  | [] => 0
  | c :: cs => marker_count c + marker_count_list cs

end

/-- A line is non-blank when it is not empty after stripping; blank lines
are the ones both `build_tree` and the child loop skip. -/
def nonblank (l : List Char) : Bool :=
  (strip l).length != 0

/-- Number of non-blank lines among the first `n` lines of `file`:
the cursor position in the blank-line-free version of `file` that
corresponds to position `n` in `file`. -/
def cntNB (file : List (List Char)) (n : Nat) : Nat :=
  (file.take n).countP nonblank

/-- The worked example of the specification, section 8. -/
def exampleFile : List (List Char) :=
  ["execute if a".toList, "\texecute if b".toList, "\t\trun cmd1".toList,
   "\t\trun cmd2".toList, "\tif c".toList, "\t\trun cmd3".toList]

/-- A comment line followed by a strictly deeper command line: the built
child gets attached to a marker and is dropped with a warning. -/
def commentChildFile : List (List Char) :=
  ["# c".toList, "\tx".toList]

end Ams

namespace Ams

/-- At end of file the child loop stops and hands back the cursor. -/
theorem loop_end (file : List (List Char)) (indent : Nat) (cur : Tree)
    (hub : file.length ≤ file.length) :
    build_loop file indent cur file.length hub =
      ⟨cur, 0, file.length, Nat.le_refl _, hub⟩ := by
  rw [build_loop.eq_def]
  simp

/-- A blank line is skipped by the child loop. -/
theorem loop_blank (file : List (List Char)) (indent : Nat) (cur : Tree)
    (n : Nat) (hub : n ≤ file.length) (hlt : n < file.length)
    (hb : (strip file[n]).length = 0) :
    (build_loop file indent cur n hub).element =
        (build_loop file indent cur (n + 1) hlt).element ∧
      (build_loop file indent cur n hub).warnings =
        (build_loop file indent cur (n + 1) hlt).warnings ∧
      (build_loop file indent cur n hub).next =
        (build_loop file indent cur (n + 1) hlt).next := by
  rw [build_loop.eq_def]
  simp [Nat.ne_of_lt hlt, hb]

/-- At a non-blank line of depth at most `indent`, the loop stops and
hands back the cursor positioned at that line. -/
theorem loop_stop (file : List (List Char)) (indent : Nat) (cur : Tree)
    (n : Nat) (hub : n ≤ file.length) (hlt : n < file.length)
    (hnb : (strip file[n]).length ≠ 0) (hle : count_indents file[n] ≤ indent) :
    build_loop file indent cur n hub = ⟨cur, 0, n, Nat.le_refl _, hub⟩ := by
  rw [build_loop.eq_def]
  simp [Nat.ne_of_lt hlt, hnb, Nat.not_lt.mpr hle]

/-- At a non-blank line strictly deeper than `indent`, the loop builds
that line as an element, `add_child`s it to the current element, and
continues from the cursor returned by the recursive call. -/
theorem loop_deeper (file : List (List Char)) (indent : Nat) (cur : Tree)
    (n : Nat) (hub : n ≤ file.length) (hlt : n < file.length)
    (hnb : (strip file[n]).length ≠ 0) (hgt : indent < count_indents file[n]) :
    (build_loop file indent cur n hub).element =
        (build_loop file indent (add_child cur (build_element_core file n hlt).element).1
          (build_element_core file n hlt).next (build_element_core file n hlt).h_hi).element ∧
      (build_loop file indent cur n hub).warnings =
        (build_element_core file n hlt).warnings +
          (add_child cur (build_element_core file n hlt).element).2 +
          (build_loop file indent (add_child cur (build_element_core file n hlt).element).1
            (build_element_core file n hlt).next (build_element_core file n hlt).h_hi).warnings ∧
      (build_loop file indent cur n hub).next =
        (build_loop file indent (add_child cur (build_element_core file n hlt).element).1
          (build_element_core file n hlt).next (build_element_core file n hlt).h_hi).next := by
  rw [build_loop.eq_def]
  simp only [dif_neg (Nat.ne_of_lt hlt), if_neg hnb, if_pos hgt]
  exact ⟨trivial, trivial, trivial⟩

/-- `__build_element__` on a non-blank line: classify it and run the
child loop from the following line. -/
theorem core_eq (file : List (List Char)) (line : Nat) (h : line < file.length) :
    build_element_core file line h =
      build_loop file (count_indents file[line])
        (if (strip file[line]).head? = some '#' then Tree.marker (strip file[line])
         else Tree.node (strip file[line]) []) (line + 1) h := by
  rw [build_element_core.eq_def]

/-- `build_loop` depends only on its data arguments: with equal current
elements and equal cursors the fields agree, whatever the bound proofs. -/
theorem loop_congr (file : List (List Char)) (indent : Nat) (cur cur2 : Tree)
    (n n2 : Nat) (hub : n ≤ file.length) (hub2 : n2 ≤ file.length)
    (hc : cur = cur2) (hn : n = n2) :
    (build_loop file indent cur n hub).element = (build_loop file indent cur2 n2 hub2).element ∧
      (build_loop file indent cur n hub).warnings =
        (build_loop file indent cur2 n2 hub2).warnings ∧
      (build_loop file indent cur n hub).next = (build_loop file indent cur2 n2 hub2).next := by
  subst hc
  subst hn
  exact ⟨rfl, rfl, rfl⟩

/-- The child loop never changes a marker current element: `add_child`
drops every child attached to a comment. -/
theorem loop_marker (file : List (List Char)) (indent : Nat) (cur : Tree)
    (n : Nat) (hub : n ≤ file.length) :
    ∀ s, cur = Tree.marker s → (build_loop file indent cur n hub).element = Tree.marker s := by
  refine build_loop.induct file (fun _ _ => True)
    (fun indent cur n hub => ∀ s, cur = Tree.marker s →
      (build_loop file indent cur n hub).element = Tree.marker s) ?_ ?_ ?_ ?_ ?_ indent cur n hub
  · intros
    trivial
  · intro i c hub s hs
    rw [loop_end]
    simpa using hs
  · intro i c n hub hne hlt nc hb IH s hs
    rw [(loop_blank file i c n hub hlt hb).1]
    exact IH s hs
  · intro i c n hub hne hlt nc hnb ni hgt celem cwarn cnext hclo hchi hE ac IH1 IH2 IH3 s hs
    have h1 : (build_element_core file n hlt).element = celem := by rw [hE]
    have h2 : (build_element_core file n hlt).next = cnext := by rw [hE]
    rw [(loop_deeper file i c n hub hlt hnb hgt).1]
    rw [(loop_congr file i (add_child c (build_element_core file n hlt).element).1
      (add_child c celem).1 (build_element_core file n hlt).next cnext
      (build_element_core file n hlt).h_hi hchi (by rw [h1]) h2).1]
    refine IH3 s ?_
    rw [hs]
    rfl
  · intro i c n hub hne hlt nc hnb ni hgt s hs
    rw [loop_stop file i c n hub hlt hnb (Nat.not_lt.mp hgt)]
    simpa using hs

/-- The child loop on a command node only appends children, and every
appended child was built from a non-blank line, at or after the loop
cursor, whose indentation is strictly greater than `indent`. -/
theorem loop_node (file : List (List Char)) (indent : Nat) (cur : Tree)
    (n : Nat) (hub : n ≤ file.length) :
    ∀ s cs, cur = Tree.node s cs → ∃ ext,
      (build_loop file indent cur n hub).element = Tree.node s (cs ++ ext) ∧
      ∀ c ∈ ext, ∃ l, ∃ hl : l < file.length, n ≤ l ∧ (strip file[l]).length ≠ 0 ∧
        indent < count_indents file[l] ∧ c = (build_element_core file l hl).element := by
  refine build_loop.induct file (fun _ _ => True)
    (fun indent cur n hub => ∀ s cs, cur = Tree.node s cs → ∃ ext,
      (build_loop file indent cur n hub).element = Tree.node s (cs ++ ext) ∧
      ∀ c ∈ ext, ∃ l, ∃ hl : l < file.length, n ≤ l ∧ (strip file[l]).length ≠ 0 ∧
        indent < count_indents file[l] ∧ c = (build_element_core file l hl).element)
    ?_ ?_ ?_ ?_ ?_ indent cur n hub
  · intros
    trivial
  · intro i c hub s cs hc
    refine ⟨[], ?_, by simp⟩
    rw [loop_end]
    simpa using hc
  · intro i c n hub hne hlt nc hb IH s cs hc
    obtain ⟨ext, hel, hprov⟩ := IH s cs hc
    refine ⟨ext, ?_, ?_⟩
    · rw [(loop_blank file i c n hub hlt hb).1]
      exact hel
    · intro x hx
      obtain ⟨l, hl, hnl, hnb2, hlt2, hcx⟩ := hprov x hx
      exact ⟨l, hl, by omega, hnb2, hlt2, hcx⟩
  · intro i c n hub hne hlt nc hnb ni hgt celem cwarn cnext hclo hchi hE ac IH1 IH2 IH3 s cs hc
    have h1 : (build_element_core file n hlt).element = celem := by rw [hE]
    have h2 : (build_element_core file n hlt).next = cnext := by rw [hE]
    obtain ⟨ext, hel, hprov⟩ := IH3 s (cs ++ [celem]) (by rw [hc]; rfl)
    refine ⟨celem :: ext, ?_, ?_⟩
    · rw [(loop_deeper file i c n hub hlt hnb hgt).1]
      rw [(loop_congr file i (add_child c (build_element_core file n hlt).element).1
        (add_child c celem).1 (build_element_core file n hlt).next cnext
        (build_element_core file n hlt).h_hi hchi (by rw [h1]) h2).1]
      rw [hel]
      simp
    · intro x hx
      rcases List.mem_cons.mp hx with hx1 | hx2
      · exact ⟨n, hlt, Nat.le_refl _, hnb, hgt, by rw [hx1, h1]⟩
      · obtain ⟨l, hl, hnl, hnb2, hlt2, hcx⟩ := hprov x hx2
        exact ⟨l, hl, by omega, hnb2, hlt2, hcx⟩
  · intro i c n hub hne hlt nc hnb ni hgt s cs hc
    refine ⟨[], ?_, by simp⟩
    rw [loop_stop file i c n hub hlt hnb (Nat.not_lt.mp hgt)]
    simpa using hc

/-- A comment line builds a marker carrying its stripped text, whatever
deeper lines follow it. -/
theorem core_marker (file : List (List Char)) (line : Nat) (h : line < file.length)
    (hc : (strip file[line]).head? = some '#') :
    (build_element_core file line h).element = Tree.marker (strip file[line]) := by
  rw [core_eq, if_pos hc]
  exact loop_marker file _ _ _ _ _ rfl

/-- A non-comment, non-blank line builds a command node carrying its
stripped text, whose children all come from later non-blank lines of
strictly greater indentation depth. -/
theorem core_node (file : List (List Char)) (line : Nat) (h : line < file.length)
    (hc : (strip file[line]).head? ≠ some '#') :
    ∃ cs, (build_element_core file line h).element = Tree.node (strip file[line]) cs ∧
      ∀ c ∈ cs, ∃ l, ∃ hl : l < file.length, line < l ∧ (strip file[l]).length ≠ 0 ∧
        count_indents file[line] < count_indents file[l] ∧
        c = (build_element_core file l hl).element := by
  rw [core_eq, if_neg hc]
  obtain ⟨ext, hel, hprov⟩ :=
    loop_node file (count_indents file[line]) _ (line + 1) h (strip file[line]) [] rfl
  refine ⟨ext, by simpa using hel, ?_⟩
  intro x hx
  obtain ⟨l, hl, hnl, hnb2, hlt2, hcx⟩ := hprov x hx
  exact ⟨l, hl, by omega, hnb2, hlt2, hcx⟩

/-- Skipping a run of blank lines does not change the result of the
child loop. -/
theorem loop_skip_blanks (file : List (List Char)) (indent : Nat) (cur : Tree)
    (j : Nat) (hj : j ≤ file.length) :
    ∀ (n : Nat) (hub : n ≤ file.length), n ≤ j →
      (∀ k, n ≤ k → k < j → (strip (file.getD k [])).length = 0) →
      (build_loop file indent cur n hub).element = (build_loop file indent cur j hj).element ∧
        (build_loop file indent cur n hub).warnings =
          (build_loop file indent cur j hj).warnings ∧
        (build_loop file indent cur n hub).next = (build_loop file indent cur j hj).next := by
  have key : ∀ (d n : Nat) (hub : n ≤ file.length), j - n = d → n ≤ j →
      (∀ k, n ≤ k → k < j → (strip (file.getD k [])).length = 0) →
      (build_loop file indent cur n hub).element = (build_loop file indent cur j hj).element ∧
        (build_loop file indent cur n hub).warnings =
          (build_loop file indent cur j hj).warnings ∧
        (build_loop file indent cur n hub).next = (build_loop file indent cur j hj).next := by
    intro d
    induction d with
    | zero =>
      intro n hub hd hnj hblank
      have hnj2 : n = j := by omega
      subst hnj2
      exact ⟨rfl, rfl, rfl⟩
    | succ d IH =>
      intro n hub hd hnj hblank
      have hnlt : n < j := by omega
      have hlt : n < file.length := by omega
      have hb : (strip file[n]).length = 0 := by
        have h0 := hblank n (Nat.le_refl _) hnlt
        rwa [List.getD_eq_getElem file [] hlt] at h0
      have hstep := loop_blank file indent cur n hub hlt hb
      have hrec := IH (n + 1) hlt (by omega) (by omega)
        (fun k hk1 hk2 => hblank k (by omega) hk2)
      exact ⟨hstep.1.trans hrec.1, hstep.2.1.trans hrec.2.1, hstep.2.2.trans hrec.2.2⟩
  intro n hub hnj hblank
  exact key (j - n) n hub rfl hnj hblank

/-- A command line whose first following non-blank line is strictly
deeper gets the element built from that line as its first child. -/
theorem core_first_child (file : List (List Char)) (line : Nat) (h : line < file.length)
    (j : Nat) (hj : j < file.length)
    (hc : (strip file[line]).head? ≠ some '#')
    (hlj : line < j)
    (hblank : ∀ k, line < k → k < j → (strip (file.getD k [])).length = 0)
    (hnbj : (strip file[j]).length ≠ 0)
    (hgt : count_indents file[line] < count_indents file[j]) :
    ∃ rest, (build_element_core file line h).element =
      Tree.node (strip file[line]) ((build_element_core file j hj).element :: rest) := by
  rw [core_eq, if_neg hc]
  have hskip := loop_skip_blanks file (count_indents file[line])
    (Tree.node (strip file[line]) []) j (Nat.le_of_lt hj) (line + 1) h hlj
    (fun k hk1 hk2 => hblank k (by omega) hk2)
  rw [hskip.1]
  have hdeep := loop_deeper file (count_indents file[line]) (Tree.node (strip file[line]) [])
    j (Nat.le_of_lt hj) hj hnbj hgt
  rw [hdeep.1]
  obtain ⟨ext, hel, _⟩ := loop_node file (count_indents file[line])
    (add_child (Tree.node (strip file[line]) [])
      (build_element_core file j hj).element).1
    (build_element_core file j hj).next (build_element_core file j hj).h_hi
    (strip file[line]) [(build_element_core file j hj).element] rfl
  exact ⟨ext, hel⟩

/-- A comment line whose first following non-blank line is strictly
deeper still builds a childless marker, and at least one warning is
emitted (the dropped child). -/
theorem core_comment_warn (file : List (List Char)) (line : Nat) (h : line < file.length)
    (j : Nat) (hj : j < file.length)
    (hc : (strip file[line]).head? = some '#')
    (hlj : line < j)
    (hblank : ∀ k, line < k → k < j → (strip (file.getD k [])).length = 0)
    (hnbj : (strip file[j]).length ≠ 0)
    (hgt : count_indents file[line] < count_indents file[j]) :
    (build_element_core file line h).element = Tree.marker (strip file[line]) ∧
      1 ≤ (build_element_core file line h).warnings := by
  refine ⟨core_marker file line h hc, ?_⟩
  rw [core_eq, if_pos hc]
  have hskip := loop_skip_blanks file (count_indents file[line])
    (Tree.marker (strip file[line])) j (Nat.le_of_lt hj) (line + 1) h hlj
    (fun k hk1 hk2 => hblank k (by omega) hk2)
  rw [hskip.2.1]
  have hdeep := loop_deeper file (count_indents file[line]) (Tree.marker (strip file[line]))
    j (Nat.le_of_lt hj) hj hnbj hgt
  rw [hdeep.2.1]
  simp [add_child]
  omega

/-- On a non-blank line in range, `__build_element__` returns the element
built by the classification-and-loop body, with its warnings and cursor. -/
theorem build_element_nonblank (file : List (List Char)) (line : Nat)
    (h : line < file.length) (hnb : (strip file[line]).length ≠ 0) :
    build_element file line = (some (build_element_core file line h).element,
      (build_element_core file line h).warnings, (build_element_core file line h).next) := by
  simp [build_element, dif_pos h, if_neg hnb]
  simpa using hnb

/-- On a blank line, `__build_element__` returns `(None, line)`. -/
theorem build_element_blank (file : List (List Char)) (line : Nat)
    (h : line < file.length) (hb : (strip file[line]).length = 0) :
    build_element file line = (none, 0, line) := by
  simp [build_element, dif_pos h, if_pos hb]
  simpa using hb

/-- On a non-blank line, `__build_element__` strictly advances the cursor,
and never beyond the end of the file. -/
theorem build_element_advance (file : List (List Char)) (line : Nat)
    (h : line < file.length) (hnb : (strip file[line]).length ≠ 0) :
    line < (build_element file line).2.2 ∧ (build_element file line).2.2 ≤ file.length := by
  rw [build_element_nonblank file line h hnb]
  exact ⟨(build_element_core file line h).h_lo, (build_element_core file line h).h_hi⟩

/-- Past the end of the input, the `build_tree` loop stops. -/
theorem tree_loop_end (file : List (List Char)) (line : Nat) (h : ¬line < file.length) :
    build_tree_loop file line = ([], 0) := by
  rw [build_tree_loop.eq_def]
  simp [h]

/-- The `build_tree` loop skips a blank line. -/
theorem tree_loop_blank (file : List (List Char)) (line : Nat) (h : line < file.length)
    (hb : (strip file[line]).length = 0) :
    build_tree_loop file line = build_tree_loop file (line + 1) := by
  rw [build_tree_loop.eq_def]
  simp [dif_pos h, hb]

/-- The `build_tree` loop builds one element at a non-blank line and
continues at the returned cursor. -/
theorem tree_loop_elem (file : List (List Char)) (line : Nat) (h : line < file.length)
    (hnb : (strip file[line]).length ≠ 0) :
    build_tree_loop file line =
      ((build_element file line).1.toList ++
          (build_tree_loop file (build_element file line).2.2).1,
        (build_element file line).2.1 +
          (build_tree_loop file (build_element file line).2.2).2) := by
  rw [build_tree_loop.eq_def]
  simp [dif_pos h, hnb]

/-- Each tree contributes one output line per leaf command node plus one
per marker: `compile` produces `leaf_count + marker_count` lines. -/
theorem compile_length (t : Tree) :
    ∀ parent, (Tree.compile t parent).length = leaf_count t + marker_count t := by
  refine Tree.compile.induct
    (fun t _ => ∀ q, (Tree.compile t q).length = leaf_count t + marker_count t)
    (fun ts _ => ∀ q, (compile_children ts q).length =
      leaf_count_list ts + marker_count_list ts) ?_ ?_ ?_ ?_ ?_ t []
  · intro s p q
    simp [Tree.compile, leaf_count, marker_count]
  · intro s children p ns hlen IH q
    cases children with
    | nil => simp at hlen
    | cons c cs =>
      simp [Tree.compile, leaf_count, marker_count]
      exact IH _
  · intro s children p hlen q
    have hz : children = [] := List.length_eq_zero.mp (by omega)
    subst hz
    simp [Tree.compile, leaf_count, marker_count, marker_count_list]
  · intro p q
    simp [compile_children, leaf_count_list, marker_count_list]
  · intro c cs ns IH1 IH2 q
    simp [compile_children, IH1 q, IH2 q, leaf_count_list, marker_count_list]
    omega

/-- Concrete run: a single root command `say hi` with no children
compiles to the single line `say hi ` (with the trailing space the code
appends) followed by a newline. -/
theorem sayhi_eval :
    compile_tree_list (build_tree ["say hi".toList]).1 = "say hi \n".toList := by
  simp +decide [build_tree, build_tree_loop, build_element, build_element_core, build_loop,
    strip, isSpaceChar, count_indents, add_child, compile_tree_list, Tree.compile,
    compile_children]

/-- Concrete run of the specification example: each output line carries a
trailing space before its newline. -/
theorem example_eval :
    compile_tree_list (build_tree exampleFile).1 =
      ("execute if a execute if b run cmd1 \n" ++ "execute if a execute if b run cmd2 \n" ++
        "execute if a if c run cmd3 \n").toList := by
  simp +decide [exampleFile, build_tree, build_tree_loop, build_element, build_element_core,
    build_loop, strip, isSpaceChar, count_indents, add_child, compile_tree_list, Tree.compile,
    compile_children]

/-- Concrete run: a comment line followed by a deeper command line builds
a single childless marker root, with one warning for the dropped child. -/
theorem comment_child_eval :
    build_tree commentChildFile = ([Tree.marker "# c".toList], 1) := by
  simp +decide [commentChildFile, build_tree, build_tree_loop, build_element,
    build_element_core, build_loop, strip, isSpaceChar, count_indents, add_child]

theorem nonblank_true_iff (l : List Char) : nonblank l = true ↔ (strip l).length ≠ 0 := by
  unfold nonblank
  exact bne_iff_ne

theorem nonblank_false_iff (l : List Char) : nonblank l = false ↔ (strip l).length = 0 := by
  rw [← Bool.not_eq_true, nonblank_true_iff]
  exact not_not

theorem cntNB_zero (file : List (List Char)) : cntNB file 0 = 0 := by
  simp [cntNB]

theorem cntNB_le (file : List (List Char)) (n : Nat) :
    cntNB file n ≤ (file.filter nonblank).length := by
  simp only [cntNB, List.countP_eq_length_filter]
  exact ((List.take_sublist n file).filter _).length_le

theorem cntNB_len (file : List (List Char)) :
    cntNB file file.length = (file.filter nonblank).length := by
  simp [cntNB, List.countP_eq_length_filter]

theorem cntNB_succ_blank (file : List (List Char)) (n : Nat) (h : n < file.length)
    (hb : nonblank file[n] = false) : cntNB file (n + 1) = cntNB file n := by
  unfold cntNB
  rw [List.take_succ, List.countP_append, List.getElem?_eq_getElem h]
  simp [hb]

theorem cntNB_succ_nonblank (file : List (List Char)) (n : Nat) (h : n < file.length)
    (hnb : nonblank file[n] = true) : cntNB file (n + 1) = cntNB file n + 1 := by
  unfold cntNB
  rw [List.take_succ, List.countP_append, List.getElem?_eq_getElem h]
  simp [hnb]

/-- A non-blank line of `file` is found in the blank-free version of
`file` at the corresponding position `cntNB`. -/
theorem filter_getElem :
    ∀ (file : List (List Char)) (n : Nat) (h : n < file.length),
      nonblank file[n] = true →
      cntNB file n < (file.filter nonblank).length ∧
        (file.filter nonblank).getD (cntNB file n) [] = file[n] := by
  intro file
  induction file with
  | nil => intro n h; simp at h
  | cons a as IH =>
    intro n h hnb
    cases n with
    | zero =>
      simp only [List.getElem_cons_zero] at hnb
      simp [cntNB, List.filter_cons, hnb]
    | succ m =>
      have h2 : m < as.length := by simpa using h
      have hnb2 : nonblank as[m] = true := by simpa using hnb
      obtain ⟨IH1, IH2⟩ := IH m h2 hnb2
      simp only [cntNB] at IH1 IH2 ⊢
      simp only [List.take_succ_cons, List.countP_cons, List.getElem_cons_succ]
      by_cases ha : nonblank a
      · rw [List.filter_cons, if_pos (by simp [ha])]
        simp only [ha, if_true, List.length_cons, List.getD_cons_succ]
        exact ⟨by omega, IH2⟩
      · have ha2 : nonblank a = false := by simpa using ha
        rw [List.filter_cons, if_neg (by simp [ha2])]
        simp only [ha2, if_false, Nat.add_zero]
        exact ⟨IH1, IH2⟩

/-- Removing blank lines does not change what the builder builds: the
child loop over `file` from cursor `n` produces the same element and
warnings as the loop over the blank-free file from cursor `cntNB file n`,
and the returned cursors correspond. -/
theorem sim_loop (file : List (List Char)) (indent : Nat) (cur : Tree)
    (n : Nat) (hub : n ≤ file.length)
    (hubF : cntNB file n ≤ (file.filter nonblank).length) :
    (build_loop file indent cur n hub).element =
        (build_loop (file.filter nonblank) indent cur (cntNB file n) hubF).element ∧
      (build_loop file indent cur n hub).warnings =
        (build_loop (file.filter nonblank) indent cur (cntNB file n) hubF).warnings ∧
      cntNB file (build_loop file indent cur n hub).next =
        (build_loop (file.filter nonblank) indent cur (cntNB file n) hubF).next := by
  refine build_loop.induct file
    (fun line h => nonblank file[line] = true →
      ∀ hf : cntNB file line < (file.filter nonblank).length,
        (build_element_core file line h).element =
            (build_element_core (file.filter nonblank) (cntNB file line) hf).element ∧
          (build_element_core file line h).warnings =
            (build_element_core (file.filter nonblank) (cntNB file line) hf).warnings ∧
          cntNB file (build_element_core file line h).next =
            (build_element_core (file.filter nonblank) (cntNB file line) hf).next)
    (fun indent cur n hub => ∀ hubF : cntNB file n ≤ (file.filter nonblank).length,
      (build_loop file indent cur n hub).element =
          (build_loop (file.filter nonblank) indent cur (cntNB file n) hubF).element ∧
        (build_loop file indent cur n hub).warnings =
          (build_loop (file.filter nonblank) indent cur (cntNB file n) hubF).warnings ∧
        cntNB file (build_loop file indent cur n hub).next =
          (build_loop (file.filter nonblank) indent cur (cntNB file n) hubF).next)
    ?_ ?_ ?_ ?_ ?_ indent cur n hub hubF
  · -- the body of __build_element__: classification plus loop from line+1
    intro line h cm ind ce IH hnb hf
    obtain ⟨hfl, hfe0⟩ := filter_getElem file line h hnb
    have hFe : (file.filter nonblank)[cntNB file line] = file[line] :=
      (List.getD_eq_getElem _ [] hf).symm.trans hfe0
    have hcnt : cntNB file (line + 1) = cntNB file line + 1 :=
      cntNB_succ_nonblank file line h hnb
    have hubF2 : cntNB file (line + 1) ≤ (file.filter nonblank).length := by omega
    obtain ⟨e1, w1, x1⟩ := IH hubF2
    rw [core_eq file line h, core_eq (file.filter nonblank) (cntNB file line) hf, hFe]
    have hC := loop_congr (file.filter nonblank) (count_indents file[line])
      (if (strip file[line]).head? = some '#' then Tree.marker (strip file[line])
        else Tree.node (strip file[line]) [])
      (if (strip file[line]).head? = some '#' then Tree.marker (strip file[line])
        else Tree.node (strip file[line]) [])
      (cntNB file (line + 1)) (cntNB file line + 1) hubF2 hf rfl hcnt
    exact ⟨e1.trans hC.1, w1.trans hC.2.1, x1.trans hC.2.2⟩
  · -- end of file
    intro i c hub2 hubF
    have hL : cntNB file file.length = (file.filter nonblank).length := cntNB_len file
    have hC := loop_congr (file.filter nonblank) i c c (cntNB file file.length)
      (file.filter nonblank).length hubF (Nat.le_refl _) rfl hL
    rw [loop_end file i c hub2, hC.1, hC.2.1, hC.2.2,
      loop_end (file.filter nonblank) i c (Nat.le_refl _)]
    exact ⟨rfl, rfl, hL⟩
  · -- blank line: skipped in `file`, absent from the filtered file
    intro i c n2 hub2 hne hlt nc hb IH hubF
    have hbF : nonblank file[n2] = false := (nonblank_false_iff _).mpr hb
    have hcnt : cntNB file (n2 + 1) = cntNB file n2 := cntNB_succ_blank file n2 hlt hbF
    have hubF2 : cntNB file (n2 + 1) ≤ (file.filter nonblank).length := by omega
    obtain ⟨e1, w1, x1⟩ := IH hubF2
    have hstep := loop_blank file i c n2 hub2 hlt hb
    have hC := loop_congr (file.filter nonblank) i c c (cntNB file (n2 + 1))
      (cntNB file n2) hubF2 hubF rfl hcnt
    exact ⟨hstep.1.trans (e1.trans hC.1), hstep.2.1.trans (w1.trans hC.2.1),
      by rw [hstep.2.2]; exact x1.trans hC.2.2⟩
  · -- non-blank line deeper than `indent`: build it in both runs
    intro i c n2 hub2 hne hlt nc hnb0 ni hgt celem cwarn cnext hclo hchi hE ac IH1 IH2 IH3 hubF
    have hnbP : (strip file[n2]).length ≠ 0 := hnb0
    have hnbB : nonblank file[n2] = true := (nonblank_true_iff _).mpr hnbP
    obtain ⟨hfl, hfe0⟩ := filter_getElem file n2 hlt hnbB
    have hFe : (file.filter nonblank)[cntNB file n2] = file[n2] :=
      (List.getD_eq_getElem _ [] hfl).symm.trans hfe0
    have h1 : (build_element_core file n2 hlt).element = celem := by rw [hE]
    have h2 : (build_element_core file n2 hlt).next = cnext := by rw [hE]
    have h3 : (build_element_core file n2 hlt).warnings = cwarn := by rw [hE]
    have hstep := loop_deeper file i c n2 hub2 hlt hnbP hgt
    have hgtF : i < count_indents (file.filter nonblank)[cntNB file n2] := by
      rw [hFe]; exact hgt
    have hnbF : (strip (file.filter nonblank)[cntNB file n2]).length ≠ 0 := by
      rw [hFe]; exact hnbP
    have hstepF := loop_deeper (file.filter nonblank) i c (cntNB file n2) hubF hfl hnbF hgtF
    obtain ⟨ce1, cw1, cx1⟩ := IH1 hnbB hfl
    have hceF : (build_element_core (file.filter nonblank) (cntNB file n2) hfl).element
        = celem := ce1.symm.trans h1
    have hcwF : (build_element_core (file.filter nonblank) (cntNB file n2) hfl).warnings
        = cwarn := cw1.symm.trans h3
    have hcx : cntNB file cnext =
        (build_element_core (file.filter nonblank) (cntNB file n2) hfl).next := by
      rw [← h2]; exact cx1
    have hubF2 : cntNB file cnext ≤ (file.filter nonblank).length := by
      rw [hcx]
      exact (build_element_core (file.filter nonblank) (cntNB file n2) hfl).h_hi
    obtain ⟨e3, w3, x3⟩ := IH3 hubF2
    have hAo := loop_congr file i
      (add_child c (build_element_core file n2 hlt).element).1 (add_child c celem).1
      (build_element_core file n2 hlt).next cnext
      (build_element_core file n2 hlt).h_hi hchi (by rw [h1]) h2
    have hAf := loop_congr (file.filter nonblank) i
      (add_child c (build_element_core (file.filter nonblank) (cntNB file n2) hfl).element).1
      (add_child c celem).1
      (build_element_core (file.filter nonblank) (cntNB file n2) hfl).next
      (cntNB file cnext)
      (build_element_core (file.filter nonblank) (cntNB file n2) hfl).h_hi hubF2
      (by rw [hceF]) hcx.symm
    refine ⟨?_, ?_, ?_⟩
    · exact hstep.1.trans (hAo.1.trans (e3.trans (hAf.1.symm.trans hstepF.1.symm)))
    · rw [hstep.2.1, hstepF.2.1, hAo.2.1, hAf.2.1, h3, h1, hcwF, hceF, w3]
    · rw [hstep.2.2, hstepF.2.2, hAo.2.2, hAf.2.2, x3]
  · -- non-blank line at depth ≤ `indent`: both loops stop here
    intro i c n2 hub2 hne hlt nc hnb0 ni hgt hubF
    have hnbP : (strip file[n2]).length ≠ 0 := hnb0
    have hnbB : nonblank file[n2] = true := (nonblank_true_iff _).mpr hnbP
    obtain ⟨hfl, hfe0⟩ := filter_getElem file n2 hlt hnbB
    have hFe : (file.filter nonblank)[cntNB file n2] = file[n2] :=
      (List.getD_eq_getElem _ [] hfl).symm.trans hfe0
    have hle : count_indents file[n2] ≤ i := Nat.not_lt.mp hgt
    have hnbF : (strip (file.filter nonblank)[cntNB file n2]).length ≠ 0 := by
      rw [hFe]; exact hnbP
    have hleF : count_indents (file.filter nonblank)[cntNB file n2] ≤ i := by
      rw [hFe]; exact hle
    rw [loop_stop file i c n2 hub2 hlt hnbP hle,
      loop_stop (file.filter nonblank) i c (cntNB file n2) hubF hfl hnbF hleF]
    exact ⟨rfl, rfl, rfl⟩

/-- Core correspondence between the run on `file` and the run on the
blank-free file, at a non-blank line. -/
theorem sim_core (file : List (List Char)) (line : Nat) (h : line < file.length)
    (hnb : nonblank file[line] = true)
    (hf : cntNB file line < (file.filter nonblank).length) :
    (build_element_core file line h).element =
        (build_element_core (file.filter nonblank) (cntNB file line) hf).element ∧
      (build_element_core file line h).warnings =
        (build_element_core (file.filter nonblank) (cntNB file line) hf).warnings ∧
      cntNB file (build_element_core file line h).next =
        (build_element_core (file.filter nonblank) (cntNB file line) hf).next := by
  obtain ⟨hfl, hfe0⟩ := filter_getElem file line h hnb
  have hFe : (file.filter nonblank)[cntNB file line] = file[line] :=
    (List.getD_eq_getElem _ [] hf).symm.trans hfe0
  have hcnt : cntNB file (line + 1) = cntNB file line + 1 :=
    cntNB_succ_nonblank file line h hnb
  have hubF2 : cntNB file (line + 1) ≤ (file.filter nonblank).length := by omega
  obtain ⟨e1, w1, x1⟩ := sim_loop file (count_indents file[line])
    (if (strip file[line]).head? = some '#' then Tree.marker (strip file[line])
      else Tree.node (strip file[line]) []) (line + 1) h hubF2
  rw [core_eq file line h, core_eq (file.filter nonblank) (cntNB file line) hf, hFe]
  have hC := loop_congr (file.filter nonblank) (count_indents file[line])
    (if (strip file[line]).head? = some '#' then Tree.marker (strip file[line])
      else Tree.node (strip file[line]) [])
    (if (strip file[line]).head? = some '#' then Tree.marker (strip file[line])
      else Tree.node (strip file[line]) [])
    (cntNB file (line + 1)) (cntNB file line + 1) hubF2 hf rfl hcnt
  exact ⟨e1.trans hC.1, w1.trans hC.2.1, x1.trans hC.2.2⟩

/-- The top-level `build_tree` loop gives the same roots and warnings on
`file` as on the blank-free file. -/
theorem sim_tree (file : List (List Char)) :
    ∀ line, build_tree_loop file line =
      build_tree_loop (file.filter nonblank) (cntNB file line) := by
  intro line
  refine build_tree_loop.induct file
    (fun line => build_tree_loop file line =
      build_tree_loop (file.filter nonblank) (cntNB file line)) ?_ ?_ ?_ line
  · intro x h hb IH
    rw [tree_loop_blank file x h hb, IH,
      cntNB_succ_blank file x h ((nonblank_false_iff _).mpr hb)]
  · intro x h hnb r IH
    have hnbP : (strip file[x]).length ≠ 0 := hnb
    have hnbB : nonblank file[x] = true := (nonblank_true_iff _).mpr hnbP
    obtain ⟨hfl, hfe0⟩ := filter_getElem file x h hnbB
    have hFe : (file.filter nonblank)[cntNB file x] = file[x] :=
      (List.getD_eq_getElem _ [] hfl).symm.trans hfe0
    obtain ⟨e1, w1, x1⟩ := sim_core file x h hnbB hfl
    have IH2 : build_tree_loop file (build_element file x).2.2 =
        build_tree_loop (file.filter nonblank) (cntNB file (build_element file x).2.2) := IH
    rw [tree_loop_elem file x h hnbP,
      tree_loop_elem (file.filter nonblank) (cntNB file x) hfl (by rw [hFe]; exact hnbP)]
    rw [build_element_nonblank file x h hnbP] at IH2 ⊢
    rw [build_element_nonblank (file.filter nonblank) (cntNB file x) hfl
      (by rw [hFe]; exact hnbP)]
    rw [IH2, e1, w1, x1]
  · intro x hx
    have hL : cntNB file x = (file.filter nonblank).length := by
      unfold cntNB
      rw [List.take_of_length_le (by omega), List.countP_eq_length_filter]
    rw [tree_loop_end file x hx, hL,
      tree_loop_end (file.filter nonblank) _ (by omega)]

/-- `build_tree` gives identical results on `file` and on `file` with all
blank lines removed. -/
theorem build_tree_filter (file : List (List Char)) :
    build_tree file = build_tree (file.filter nonblank) := by
  unfold build_tree
  have h := sim_tree file 0
  rwa [cntNB_zero] at h

/-- Inserting one blank line anywhere leaves the blank-free file
unchanged. -/
theorem filter_insert_blank (A B : List (List Char)) (b : List Char)
    (hb : (strip b).length = 0) :
    (A ++ b :: B).filter nonblank = (A ++ B).filter nonblank := by
  have hbF : nonblank b = false := (nonblank_false_iff _).mpr hb
  simp [List.filter_append, List.filter_cons, hbF]

/-- Claim C1, counterexample: a childless Command Node with text
`say hi` and inherited empty prefix emits `say hi ` (with a trailing
space), not `say hi` as claimed. -/
theorem claim1_cex :
    Tree.compile (Tree.node "say hi".toList []) [] = ["say hi ".toList] ∧
      Tree.compile (Tree.node "say hi".toList []) [] ≠ ["say hi".toList] := by
  exact ⟨by decide, by decide⟩

/-- Claim C1, amended: emitting a Command Node with zero children under
inherited prefix `p` returns the single-element sequence
`[p + node.text + " "]` — the separator space is appended to leaves too —
and a root `say hi` command produces the output line `say hi ` (trailing
space) followed by the newline separator. -/
theorem claim1_leaf_emission :
    (∀ (s parent : List Char),
        Tree.compile (Tree.node s []) parent = [parent ++ s ++ [' ']]) ∧
      compile_tree_list (build_tree ["say hi".toList]).1 = "say hi \n".toList :=
  ⟨fun _ _ => rfl, sayhi_eval⟩

/-- Claim C2, counterexample: the six-line example does not compile to
the three claimed lines without trailing spaces. -/
theorem claim2_cex :
    compile_tree_list (build_tree exampleFile).1 ≠
      ("execute if a execute if b run cmd1\n" ++ "execute if a execute if b run cmd2\n" ++
        "execute if a if c run cmd3\n").toList := by
  rw [example_eval]
  decide

/-- Claim C2, amended: building and compiling the six-line example input
produces exactly the three output lines `execute if a execute if b run cmd1 `,
`execute if a execute if b run cmd2 `, `execute if a if c run cmd3 ` (each
with a trailing space), in that order. -/
theorem claim2_example_output :
    compile_tree_list (build_tree exampleFile).1 =
      ("execute if a execute if b run cmd1 \n" ++ "execute if a execute if b run cmd2 \n" ++
        "execute if a if c run cmd3 \n").toList :=
  example_eval

/-- Claim C3: for every tree, the number of output lines produced by
compiling it equals the number of leaf Command Nodes plus the number of
Marker nodes; internal Command Nodes contribute no line of their own. -/
theorem claim3_line_count (t : Tree) :
    ∀ parent, (Tree.compile t parent).length = leaf_count t + marker_count t :=
  compile_length t

/-- Claim C4: when a strictly deeper line follows a comment line (across
blank lines), the built child is attached to the Marker, which raises a
non-fatal warning, keeps no children, and building and compilation still
complete: the marker compiles to its own text. -/
theorem claim4_marker_child_dropped (file : List (List Char)) (line : Nat)
    (h : line < file.length) (j : Nat) (hj : j < file.length)
    (hc : (strip file[line]).head? = some '#') (hlj : line < j)
    (hblank : ∀ k, line < k → k < j → (strip (file.getD k [])).length = 0)
    (hnbj : (strip file[j]).length ≠ 0)
    (hgt : count_indents file[line] < count_indents file[j]) :
    (build_element_core file line h).element = Tree.marker (strip file[line]) ∧
      1 ≤ (build_element_core file line h).warnings ∧
      Tree.compile (build_element_core file line h).element [] = [strip file[line]] := by
  obtain ⟨he, hw⟩ := core_comment_warn file line h j hj hc hlj hblank hnbj hgt
  exact ⟨he, hw, by rw [he]; simp [Tree.compile]⟩

/-- Claim C4, witness: the concrete two-line file `# c` then tab-`x`. -/
theorem claim4_witness :
    ∃ h : (0 : Nat) < commentChildFile.length,
      (build_element_core commentChildFile 0 h).element = Tree.marker "# c".toList ∧
        1 ≤ (build_element_core commentChildFile 0 h).warnings := by
  have h : (0 : Nat) < commentChildFile.length := by decide
  obtain ⟨he, hw, _⟩ := claim4_marker_child_dropped commentChildFile 0 h 1 (by decide)
    (show (strip "# c".toList).head? = some '#' by decide) (by decide)
    (by intro k h1 h2; omega) (by decide)
    (show count_indents "# c".toList < count_indents "\tx".toList by decide)
  exact ⟨h, he, hw⟩

/-- Claim C5, counterexample: in the file `# c` then tab-`x`, the line
`\tx` is strictly deeper than the preceding element (a Marker) yet does
not become its child: the built root sequence is a single childless
marker (and one warning was emitted for the dropped child). -/
theorem claim5_cex :
    build_tree commentChildFile = ([Tree.marker "# c".toList], 1) :=
  comment_child_eval

/-- Claim C5, amended: every child of every built Command Node comes from
a later non-blank source line of strictly greater indentation depth; and
a non-blank line strictly deeper than the preceding element becomes that
element's first (direct) child whenever the preceding element is a
Command Node — when it is a Marker the built child is dropped. -/
theorem claim5_children_deeper :
    (∀ (file : List (List Char)) (line : Nat) (h : line < file.length),
      (strip file[line]).length ≠ 0 → (strip file[line]).head? ≠ some '#' →
      ∃ cs, (build_element_core file line h).element = Tree.node (strip file[line]) cs ∧
        ∀ c ∈ cs, ∃ l, ∃ hl : l < file.length, line < l ∧ (strip file[l]).length ≠ 0 ∧
          count_indents file[line] < count_indents file[l] ∧
          c = (build_element_core file l hl).element) ∧
    (∀ (file : List (List Char)) (line : Nat) (h : line < file.length)
        (j : Nat) (hj : j < file.length),
      (strip file[line]).head? ≠ some '#' → line < j →
      (∀ k, line < k → k < j → (strip (file.getD k [])).length = 0) →
      (strip file[j]).length ≠ 0 →
      count_indents file[line] < count_indents file[j] →
      ∃ rest, (build_element_core file line h).element =
        Tree.node (strip file[line]) ((build_element_core file j hj).element :: rest)) := by
  constructor
  · intro file line h _hnb hc
    exact core_node file line h hc
  · intro file line h j hj hc hlj hblank hnbj hgt
    exact core_first_child file line h j hj hc hlj hblank hnbj hgt

/-- Claim C5, witness: in the two-line file `a` then tab-`b`, the element
built from line 1 is the first child of the element built from line 0. -/
theorem claim5_witness :
    ∃ h : (0 : Nat) < (["a".toList, "\tb".toList] : List (List Char)).length,
      ∃ hj : (1 : Nat) < (["a".toList, "\tb".toList] : List (List Char)).length,
        ∃ rest, (build_element_core ["a".toList, "\tb".toList] 0 h).element =
          Tree.node "a".toList
            ((build_element_core ["a".toList, "\tb".toList] 1 hj).element :: rest) := by
  have h : (0 : Nat) < (["a".toList, "\tb".toList] : List (List Char)).length := by decide
  have hj : (1 : Nat) < (["a".toList, "\tb".toList] : List (List Char)).length := by decide
  obtain ⟨rest, hr⟩ := claim5_children_deeper.2 ["a".toList, "\tb".toList] 0 h 1 hj
    (show (strip "a".toList).head? ≠ some '#' by decide) (by decide)
    (by intro k h1 h2; omega)
    (show (strip "\tb".toList).length ≠ 0 by decide)
    (show count_indents "a".toList < count_indents "\tb".toList by decide)
  exact ⟨h, hj, rest, hr⟩

/-- Claim C6: a Marker emits exactly its stored text, ignoring the
inherited prefix entirely; and a Marker built from a comment line carries
the trimmed source line, so its output is byte-identical to that line
whatever its depth or ancestry. -/
theorem claim6_marker_verbatim :
    (∀ (s parent : List Char), Tree.compile (Tree.marker s) parent = [s]) ∧
    (∀ (file : List (List Char)) (line : Nat) (h : line < file.length),
      (strip file[line]).head? = some '#' →
      ∀ parent, Tree.compile (build_element_core file line h).element parent
        = [strip file[line]]) := by
  refine ⟨fun _ _ => rfl, ?_⟩
  intro file line h hc parent
  rw [core_marker file line h hc]
  simp [Tree.compile]

/-- Claim C6, witness: a comment line compiled under a non-empty
inherited prefix still emits its own text verbatim. -/
theorem claim6_witness :
    Tree.compile (Tree.marker "# note".toList) "zz ".toList = ["# note".toList] ∧
      ∃ h : (0 : Nat) < ([['#', 'a']] : List (List Char)).length,
        Tree.compile (build_element_core [['#', 'a']] 0 h).element "zz ".toList
          = [strip ['#', 'a']] := by
  refine ⟨claim6_marker_verbatim.1 _ _, ?_⟩
  have h : (0 : Nat) < ([['#', 'a']] : List (List Char)).length := by decide
  exact ⟨h, claim6_marker_verbatim.2 [['#', 'a']] 0 h
    (show (strip ['#', 'a']).head? = some '#' by decide) _⟩

/-- Claim C7: on every non-blank line, `__build_element__` returns a next
line index strictly greater than the index it was called with (and at
most the file length), so the recursive builders terminate. -/
theorem claim7_cursor_advance (file : List (List Char)) (line : Nat)
    (h : line < file.length) (hnb : (strip file[line]).length ≠ 0) :
    line < (build_element file line).2.2 ∧ (build_element file line).2.2 ≤ file.length :=
  build_element_advance file line h hnb

/-- Claim C7, witness: the cursor advances past line 0 of a one-line file. -/
theorem claim7_witness :
    (0 : Nat) < (["a".toList] : List (List Char)).length ∧
      0 < (build_element ["a".toList] 0).2.2 :=
  ⟨by decide, (claim7_cursor_advance ["a".toList] 0 (by decide)
    (show (strip "a".toList).length ≠ 0 by decide)).1⟩

/-- Claim C8: removing all blank lines from the input leaves the built
tree, the warnings, and the compiled output unchanged; in particular
inserting one blank line anywhere changes nothing. -/
theorem claim8_blank_lines :
    (∀ file : List (List Char), build_tree file = build_tree (file.filter nonblank)) ∧
    (∀ (A B : List (List Char)) (b : List Char), (strip b).length = 0 →
      build_tree (A ++ b :: B) = build_tree (A ++ B) ∧
        compile_tree_list (build_tree (A ++ b :: B)).1 =
          compile_tree_list (build_tree (A ++ B)).1) := by
  refine ⟨build_tree_filter, ?_⟩
  intro A B b hb
  have h1 : build_tree (A ++ b :: B) = build_tree (A ++ B) := by
    rw [build_tree_filter (A ++ b :: B), build_tree_filter (A ++ B),
      filter_insert_blank A B b hb]
  exact ⟨h1, by rw [h1]⟩

/-- Claim C8, witness: inserting a blank line between `a` and `b` does
not change the built tree. -/
theorem claim8_witness :
    (strip " ".toList).length = 0 ∧
      build_tree (["a".toList] ++ " ".toList :: ["b".toList]) =
        build_tree (["a".toList] ++ ["b".toList]) :=
  ⟨by decide, (claim8_blank_lines.2 ["a".toList] ["b".toList] " ".toList (by decide)).1⟩

/-- Claim C9: the indentation depth of a line is the count of its
consecutive leading tab-or-space characters, each counting one unit (one
tab plus two spaces gives depth 3), and a line is treated as blank when
its stripped text is empty, as a comment when the stripped text starts
with `#`, and as a command otherwise; classification is total. -/
theorem claim9_classifier :
    (∀ s : List Char, count_indents s =
      (s.takeWhile (fun c => c = '\t' || c = ' ')).length) ∧
    count_indents "\t  abc".toList = 3 ∧
    (∀ (file : List (List Char)) (line : Nat) (h : line < file.length),
      ((strip file[line]).length = 0 → build_element file line = (none, 0, line)) ∧
      ((strip file[line]).length ≠ 0 → (strip file[line]).head? = some '#' →
        (build_element_core file line h).element = Tree.marker (strip file[line])) ∧
      ((strip file[line]).length ≠ 0 → (strip file[line]).head? ≠ some '#' →
        ∃ cs, (build_element_core file line h).element = Tree.node (strip file[line]) cs)) := by
  refine ⟨?_, by decide, ?_⟩
  · intro s
    induction s with
    | nil => rfl
    | cons c cs IH =>
      by_cases hc : c = '\t' || c = ' '
      · simp [count_indents, List.takeWhile_cons, hc, IH]
      · simp [count_indents, List.takeWhile_cons, hc]
  · intro file line h
    refine ⟨fun hb => build_element_blank file line h hb,
      fun _ hc => core_marker file line h hc, fun _ hc => ?_⟩
    obtain ⟨cs, hcs, _⟩ := core_node file line h hc
    exact ⟨cs, hcs⟩

/-- Claim C9, witness: one tab plus two spaces yields depth 3, and a
comment line is classified as a marker. -/
theorem claim9_witness :
    count_indents "\t  abc".toList =
        ("\t  abc".toList.takeWhile (fun c => c = '\t' || c = ' ')).length ∧
      ∃ h : (0 : Nat) < ([['#', 'a']] : List (List Char)).length,
        (build_element_core [['#', 'a']] 0 h).element = Tree.marker (strip ['#', 'a']) := by
  refine ⟨claim9_classifier.1 _, ?_⟩
  have h : (0 : Nat) < ([['#', 'a']] : List (List Char)).length := by decide
  exact ⟨h, (claim9_classifier.2.2 [['#', 'a']] 0 h).2.1
    (show (strip ['#', 'a']).length ≠ 0 by decide)
    (show (strip ['#', 'a']).head? = some '#' by decide)⟩

/-- Claim C10: on every non-blank line — the only lines the top-level
loop and the child look-ahead loop ever call the element builder on —
`__build_element__` returns an actual element, never the absent result. -/
theorem claim10_no_none (file : List (List Char)) (line : Nat)
    (h : line < file.length) (hnb : (strip file[line]).length ≠ 0) :
    (build_element file line).1 = some (build_element_core file line h).element := by
  rw [build_element_nonblank file line h hnb]

/-- Claim C10, witness: on the non-blank line `a` the builder returns a
real element. -/
theorem claim10_witness :
    ∃ h : (0 : Nat) < (["a".toList] : List (List Char)).length,
      (build_element ["a".toList] 0).1 = some (build_element_core ["a".toList] 0 h).element := by
  have h : (0 : Nat) < (["a".toList] : List (List Char)).length := by decide
  exact ⟨h, claim10_no_none ["a".toList] 0 h
    (show (strip "a".toList).length ≠ 0 by decide)⟩

end Ams
